import Mathlib

/-!
Verification of the Faker-based ID NER data generator
(`generate_id_ner_faker.py`).

Python strings are modelled as `List Char` (Python indexes strings by code
point, as `List Char` does).  Every call to the shared pseudo-random source
is modelled by an explicit oracle value passed in a per-function oracle
record: a draw of `random.random()` becomes a `ℚ` field, `random.choice`
on a list becomes a `Nat` index taken modulo the list length, and
`random.randint` becomes a `Nat` field.  External Faker provider results
(surnames, given names, raw city names, dates of birth) are oracle inputs,
as the provider is an external collaborator of the generator.
-/

/-- The characters of a Lean string literal, as the model of a Python
string literal. -/
def chars (s : String) : List Char := s.data

set_option linter.unusedVariables false

/-- An apostrophe character (code point 39), used inside literals such as
`CARTE NATIONALE D'IDENTITÉ`. -/
def squote : List Char := [Char.ofNat 39]

/-- Python `needle in hay` substring test (first argument is the needle). -/
def containsSub (n : List Char) : List Char → Bool
  | [] => n.isEmpty
  | c :: t => n.isPrefixOf (c :: t) || containsSub n t

/-- Fuel-driven core of Python `str.replace`: replaces non-overlapping
occurrences of `p` left to right in a single pass, never rescanning the
replacement text.  The fuel is the length of the scanned string, which is
enough because each step consumes at least one character when `p ≠ []`. -/
def pyReplaceFuel (p r : List Char) : Nat → List Char → List Char
  | _, [] => []
  | 0, s => s
  | fuel+1, c :: rest =>
    if p.isPrefixOf (c :: rest) then r ++ pyReplaceFuel p r fuel ((c :: rest).drop p.length)
    else c :: pyReplaceFuel p r fuel rest

/-- Python `s.replace(p, r)` (all non-overlapping occurrences, one pass).
For an empty pattern Python inserts `r` before every character and at the
end. -/
def pyReplace (s p r : List Char) : List Char :=
  if p = [] then r ++ (s.map (fun c => c :: r)).flatten
  else pyReplaceFuel p r s.length s

/-- Removes trailing characters satisfying `p` (the tail half of Python
`str.strip`). -/
def dropTrail (p : Char → Bool) : List Char → List Char
  | [] => []
  | c :: rest =>
    if dropTrail p rest = [] ∧ p c then [] else c :: dropTrail p rest

/-- Python `str.strip()`: removes leading and trailing whitespace. -/
def pyStrip (l : List Char) : List Char :=
  dropTrail (fun c => c.isWhitespace) (l.dropWhile (fun c => c.isWhitespace))

/-- Python `str.upper()` (adequate for the characters the generator
manipulates). -/
def pyUpper (l : List Char) : List Char := l.map Char.toUpper

/-- Python slice `t[a:b]` on a string modelled as a char list. -/
def pySlice (t : List Char) (a b : Nat) : List Char := (t.drop a).take (b - a)

/-- Model of `random.choice(l)`: an oracle index reduced modulo the list
length, so that every oracle yields an element of a non-empty list. -/
def listChoice {α : Type} (l : List α) (i : Nat) (d : α) : α :=
  l.getD (i % l.length) d

/-- First-match association-list lookup, modelling Python dict lookup
(`k in d` / `d[k]`; dicts preserve insertion order). -/
def lookupAssoc {α β : Type} [DecidableEq α] : List (α × β) → α → Option β
  | [], _ => none
  | (k, v) :: rest, a => if k = a then some v else lookupAssoc rest a

/-- Decimal digits of a natural number, modelling Python `str(n)` /
`f"{n}"` for the non-negative values the generator produces. -/
def natToChars (n : Nat) : List Char := (toString n).data

/-- Python `f"{n:02d}"` for non-negative `n`: pad with a leading zero to
width two. -/
def pad2 (n : Nat) : List Char :=
  let s := natToChars n
  if s.length < 2 then '0' :: s else s

/-- A run of `n` decimal digit characters taken from a list of
`random.randint(0, 9)` draws (`"".join(str(random.randint(0,9)) ...)`). -/
def digitsStr (ds : List Nat) (n : Nat) : List Char :=
  (List.range n).map (fun i => Nat.digitChar (ds.getD i 0 % 10))

/-! ## `FakerIDGenerator._weighted_choice` (source lines 117–126) -/

/-- The accumulation loop of `_weighted_choice`: walk the options in table
order accumulating probability mass, returning the first option whose
cumulative mass reaches the draw (`if rand_val <= cumulative: return choice`). -/
def weightedLoop {α : Type} (r : ℚ) : ℚ → List (α × ℚ) → Option α
  | _, [] => none
  | cum, (k, w) :: rest => if r ≤ cum + w then some k else weightedLoop r (cum + w) rest

/-- `FakerIDGenerator._weighted_choice(choices_dict)` with the uniform draw
`r` made explicit.  The fallback `list(choices_dict.keys())[-1]` is the
last key; on an empty table Python raises `IndexError`, modelled by
`none`. -/
def weighted_choice {α : Type} (choices : List (α × ℚ)) (r : ℚ) : Option α :=
  match weightedLoop r 0 choices with
  | some k => some k
  | none => (choices.map Prod.fst).getLast?

/-- Cumulative probability mass of the first `m` table entries. -/
def partialSum {α : Type} (l : List (α × ℚ)) (m : Nat) : ℚ :=
  ((l.take m).map Prod.snd).sum

/-- Total probability mass of a table. -/
def totalWeight {α : Type} (l : List (α × ℚ)) : ℚ :=
  (l.map Prod.snd).sum

/-! ## Noise engine (source lines 194–269)

`NoiseConfig` is the bundle of probabilities and lookup tables that
`_load_noise_settings` installs on the generator instance. -/

structure NoiseConfig where
  noise_enabled : Bool
  global_prob : ℚ
  word_noise_prob : ℚ
  spacing_noise_prob : ℚ
  char_sub_prob : ℚ
  extra_char_prob : ℚ
  missing_char_prob : ℚ
  double_char_prob : ℚ
  word_replacements : List (List Char × List (List Char))
  spacing_errors : List (List Char × List (List Char))
  char_subs : List (Char × List Char)
  extra_chars : List (List Char)
  field_typos : List (List Char × List (List Char))
deriving DecidableEq

/-- `FakerIDGenerator._set_zero_noise` (source lines 194–204). -/
def set_zero_noise (cfg : NoiseConfig) : NoiseConfig :=
  { cfg with
    noise_enabled := false
    global_prob := 0
    word_noise_prob := 0
    spacing_noise_prob := 0
    char_sub_prob := 0
    extra_char_prob := 0
    missing_char_prob := 0
    double_char_prob := 0 }

/-- All seven noise probabilities are zero (the "clean" probability
profile, with the enabled flag left unconstrained). -/
def zeroProbs (cfg : NoiseConfig) : Prop :=
  cfg.global_prob = 0 ∧ cfg.word_noise_prob = 0 ∧ cfg.spacing_noise_prob = 0 ∧
  cfg.char_sub_prob = 0 ∧ cfg.extra_char_prob = 0 ∧ cfg.missing_char_prob = 0 ∧
  cfg.double_char_prob = 0

instance (cfg : NoiseConfig) : Decidable (zeroProbs cfg) := by
  unfold zeroProbs; infer_instance

/-- The four per-character draws of `_apply_character_noise` plus the
filler-pool pick of the insertion branch. -/
structure CharOracle where
  dropDraw : ℚ
  subDraw : ℚ
  dupDraw : ℚ
  insDraw : ℚ
  insIdx : Nat
deriving DecidableEq

/-- Oracle used past the end of the per-character oracle list; its draws
equal 1 so no sub-decision fires for in-range probabilities. -/
def defaultCharOracle : CharOracle := ⟨1, 1, 1, 1, 0⟩

/-- `FakerIDGenerator._apply_character_noise` (source lines 229–252).
Per character: drop (skipping everything else for that character), else
substitute via the table when the character has an entry, emit,
optionally append the *original* character as a duplicate, optionally
append one filler character. -/
def applyCharNoise : NoiseConfig → List CharOracle → List Char → List Char
  | _, _, [] => []
  | cfg, os, c :: rest =>
    let o := os.headD defaultCharOracle
    let tailOut := applyCharNoise cfg os.tail rest
    if o.dropDraw < cfg.missing_char_prob then tailOut
    else
      let emitted : List Char :=
        match lookupAssoc cfg.char_subs c with
        | some sub => if o.subDraw < cfg.char_sub_prob then sub else [c]
        | none => [c]
      let afterDup := if o.dupDraw < cfg.double_char_prob then emitted ++ [c] else emitted
      let afterIns :=
        if o.insDraw < cfg.extra_char_prob then afterDup ++ listChoice cfg.extra_chars o.insIdx []
        else afterDup
      afterIns ++ tailOut

/-- Modelled from the spec: the variant of `_apply_character_noise` whose
duplication branch appends the just-emitted (possibly substituted)
characters, as §4.1 of the spec describes, rather than the original
character.  Used only to compare the spec's words with the source. -/
def applyCharNoiseSpecDup : NoiseConfig → List CharOracle → List Char → List Char
  | _, _, [] => []
  | cfg, os, c :: rest =>
    let o := os.headD defaultCharOracle
    let tailOut := applyCharNoiseSpecDup cfg os.tail rest
    if o.dropDraw < cfg.missing_char_prob then tailOut
    else
      let emitted : List Char :=
        match lookupAssoc cfg.char_subs c with
        | some sub => if o.subDraw < cfg.char_sub_prob then sub else [c]
        | none => [c]
      let afterDup := if o.dupDraw < cfg.double_char_prob then emitted ++ emitted else emitted
      let afterIns :=
        if o.insDraw < cfg.extra_char_prob then afterDup ++ listChoice cfg.extra_chars o.insIdx []
        else afterDup
      afterIns ++ tailOut

/-- The random draws one call to `apply_noise` can consume: the global
gate draw, the word/spacing-level draws with their per-matching-key
variant picks, and the character-level gate draw with its per-character
oracles. -/
structure NoiseOracle where
  gateDraw : ℚ
  wordDraw : ℚ
  wordPicks : List Nat
  spacingDraw : ℚ
  spacingPicks : List Nat
  charDraw : ℚ
  charOracles : List CharOracle
deriving DecidableEq

/-- The replacement sweep shared by the word-level and spacing-level
branches of `apply_noise`: for every table key contained in the evolving
text, replace it by a randomly chosen variant.  A variant pick is consumed
only when the key matches, as in the source. -/
def replaceLoop : List (List Char × List (List Char)) → List Nat → List Char → List Char
  | [], _, text => text
  | (orig, variants) :: rest, picks, text =>
    if containsSub orig text then
      replaceLoop rest picks.tail (pyReplace text orig (listChoice variants (picks.headD 0) []))
    else replaceLoop rest picks text

/-- `FakerIDGenerator.apply_noise` (source lines 206–227). -/
def apply_noise (cfg : NoiseConfig) (o : NoiseOracle) (text : List Char)
    (allow_noise : Bool) : List Char :=
  if cfg.noise_enabled = false ∨ allow_noise = false ∨ o.gateDraw > cfg.global_prob then text
  else
    let t1 := if o.wordDraw < cfg.word_noise_prob then
        replaceLoop cfg.word_replacements o.wordPicks text else text
    let t2 := if o.spacingDraw < cfg.spacing_noise_prob then
        replaceLoop cfg.spacing_errors o.spacingPicks t1 else t1
    if o.charDraw < cfg.char_sub_prob + cfg.extra_char_prob + cfg.missing_char_prob then
      applyCharNoise cfg o.charOracles t2
    else t2

/-- The random values one call to `apply_field_typo` can consume: the
variant pick of the exact-match tier, the variant pick of the
substring-match tier, and the noise oracle of the generic fallback tier. -/
structure TypoOracle where
  exactIdx : Nat
  subIdx : Nat
  noise : NoiseOracle
deriving DecidableEq

/-- The substring sweep of `apply_field_typo`: the first table key
occurring inside the label, with its variants. -/
def firstSubstringMatch : List (List Char × List (List Char)) → List Char →
    Option (List Char × List (List Char))
  | [], _ => none
  | (k, vs) :: rest, t =>
    if containsSub k t then some (k, vs) else firstSubstringMatch rest t

/-- `FakerIDGenerator.apply_field_typo` (source lines 254–269): exact
table entry, then first substring match, then generic `apply_noise` with
noise allowed. -/
def apply_field_typo (cfg : NoiseConfig) (o : TypoOracle) (field_text : List Char) : List Char :=
  match lookupAssoc cfg.field_typos field_text with
  | some variants => listChoice variants o.exactIdx []
  | none =>
    match firstSubstringMatch cfg.field_typos field_text with
    | some (orig, variants) => pyReplace field_text orig (listChoice variants o.subIdx [])
    | none => apply_noise cfg o.noise field_text true

/-! ## Value synthesizers (source lines 271–351) -/

/-- `FakerIDGenerator.generate_name` (source lines 271–274): the Faker
provider's surname (an external input), uppercased. -/
def generate_name (raw : List Char) : List Char := pyUpper raw

/-- `FakerIDGenerator.generate_given_names` (source lines 276–287): each
provider first name uppercased; the drawn count is the length of the
oracle list. -/
def generate_given_names (raws : List (List Char)) : List (List Char) :=
  raws.map pyUpper

/-- The cleanup pipeline of `generate_city` before the 20-character cap:
uppercase, then remove `VILLE`, then `CITY`, then `SAN ` (each a single
left-to-right replacement pass), then strip whitespace. -/
def cityPreTrunc (raw : List Char) : List Char :=
  pyStrip (pyReplace (pyReplace (pyReplace (pyUpper raw)
    (chars "VILLE") []) (chars "CITY") []) (chars "SAN ") [])

/-- `FakerIDGenerator.generate_city` (source lines 289–297): cleanup then
`[:20]`. -/
def generate_city (raw : List Char) : List Char := (cityPreTrunc raw).take 20

/-- The draws `generate_id_number` can consume: the shape choice, the
digit draws, the letter-pool picks. -/
structure IdOracle where
  fmt : Nat
  digits : List Nat
  letters : List Nat
  year : Nat
  month : Nat
  day : Nat
deriving DecidableEq

def lettersPool : List Char := chars "ABCDEFGHIJKLMNOPQRSTUVWXYZ"
def numsPool : List Char := chars "0123456789"

/-- `FakerIDGenerator.generate_id_number` (source lines 299–319): one of
12 digits; `YYMMDDT` plus 5 digits; or letter, digit, 3 letters, 2
digits, letter, digit. -/
def generate_id_number (o : IdOracle) : List Char :=
  if o.fmt % 3 = 0 then digitsStr o.digits 12
  else if o.fmt % 3 = 1 then
    pad2 o.year ++ pad2 o.month ++ pad2 o.day ++ ['T'] ++ digitsStr o.digits 5
  else
    [listChoice lettersPool (o.letters.getD 0 0) 'A',
     listChoice numsPool (o.digits.getD 0 0) '0']
    ++ (List.range 3).map (fun i => listChoice lettersPool (o.letters.getD (i+1) 0) 'A')
    ++ (List.range 2).map (fun i => listChoice numsPool (o.digits.getD (i+1) 0) '0')
    ++ [listChoice lettersPool (o.letters.getD 4 0) 'A',
        listChoice numsPool (o.digits.getD 3 0) '0']

/-- The inputs of `generate_date`: the provider's date of birth plus the
dots-vs-spaces format draw. -/
structure DateOracle where
  day : Nat
  month : Nat
  year : Nat
  dots : Bool
deriving DecidableEq

/-- `FakerIDGenerator.generate_date` (source lines 321–331):
`DD.MM.YYYY` or `DD MM YYYY`. -/
def generate_date (o : DateOracle) : List Char :=
  if o.dots then pad2 o.day ++ ['.'] ++ pad2 o.month ++ ['.'] ++ natToChars o.year
  else pad2 o.day ++ [' '] ++ pad2 o.month ++ [' '] ++ natToChars o.year

/-- The draws of `generate_height`. -/
structure HeightOracle where
  meters : Nat
  cm : Nat
  sepSpace : Bool
  unitLower : Bool
deriving DecidableEq

/-- `FakerIDGenerator.generate_height` (source lines 333–339). -/
def generate_height (o : HeightOracle) : List Char :=
  natToChars o.meters ++ (if o.sepSpace then [' '] else [])
    ++ natToChars o.cm ++ [if o.unitLower then 'm' else 'M']

/-- The draws of `generate_expiry_date`. -/
structure ExpiryOracle where
  issueOffset : Nat
  month : Nat
  day : Nat
deriving DecidableEq

/-- `FakerIDGenerator.generate_expiry_date` (source lines 345–351):
issue year = birth year + offset, expiry year = issue year + 15. -/
def generate_expiry_date (birth_year : Nat) (o : ExpiryOracle) : List Char :=
  pad2 o.day ++ [' '] ++ pad2 o.month ++ [' '] ++ natToChars (birth_year + o.issueOffset + 15)

/-! ## Entities and the in-progress sample buffer -/

/-- One recorded entity `[start, end, label, value]` (`end` is spelled
`stop`). -/
structure Entity where
  start : Nat
  stop : Nat
  label : String
  value : List Char
deriving DecidableEq

/-- The in-progress sample of one `generate_simple_format` /
`generate_bilingual_format` call: the joined `parts` buffer so far, the
`entities` list so far, and the `pos` cursor. -/
structure B where
  text : List Char
  entities : List Entity
  pos : Nat
deriving DecidableEq

/-- `parts.append(s); pos += n` (the source sometimes advances by a
constant `n`, sometimes by `len(s)`; the increment is kept explicit). -/
def B.appN (b : B) (s : List Char) (n : Nat) : B :=
  { text := b.text ++ s, entities := b.entities, pos := b.pos + n }

/-- `entities.append([a, c, lab, v])`. -/
def B.entN (b : B) (a c : Nat) (lab : String) (v : List Char) : B :=
  { text := b.text, entities := b.entities ++ [⟨a, c, lab, v⟩], pos := b.pos }

/-- The empty buffer at the start of a sample (`parts = []`, `entities =
[]`, `pos = 0`). -/
def B0 : B := ⟨[], [], 0⟩

/-! ## Simple format (source lines 353–543) -/

/-- Per-format field-inclusion probabilities (`self.simple_probs`). -/
structure SimpleProbs where
  two_letter_code : ℚ
  signature_noise_before_nom : ℚ
  social_status_fields : ℚ
  hyphenated_alt_names : ℚ
  birth_place : ℚ
  height : ℚ
  optional_signature : ℚ
deriving DecidableEq

/-- All random draws and provider results one `generate_simple_format`
call consumes, in source order. -/
structure SimpleOracle where
  headerIdx : Nat
  headerNoise : NoiseOracle
  docNoise : NoiseOracle
  idLabelNoise : NoiseOracle
  idNum : IdOracle
  natLabelTypo : TypoOracle
  surnameRaw : List Char
  givenRaw : List (List Char)
  codeDraw : ℚ
  sigGateDraw : ℚ
  sigChoiceDraw : ℚ
  nameLabelNoise : NoiseOracle
  socialDraw : ℚ
  socialIdx : Nat
  socialTypo : TypoOracle
  altRaw : List Char
  hyphenDraw : ℚ
  altRaw2 : List Char
  prenomTypo : TypoOracle
  sexTypo : TypoOracle
  genderIsM : Bool
  neTypo : TypoOracle
  birth : DateOracle
  birthPlaceDraw : ℚ
  cityRaw : List Char
  heightDraw : ℚ
  height : HeightOracle
  tailleNoise : NoiseOracle
  sigDraw : ℚ
  sigLabelNoise : NoiseOracle
deriving DecidableEq

def headerVariants : List (List Char) :=
  [chars "RÉPUBLIQUE FRANÇAISE", chars "FRANÇAISE RÉPUBLIQUE", chars "RÉPUBLIQUEFRANÇAISE"]

/-- Header block (source lines 360–370). -/
def sfHeader (cfg : NoiseConfig) (o : SimpleOracle) (b : B) : B :=
  let header := listChoice headerVariants o.headerIdx []
  let header_noisy := apply_noise cfg o.headerNoise header true
  let country_start := b.pos
  let b1 := b.appN (header_noisy ++ chars " ") (header_noisy.length + 1)
  b1.entN country_start (country_start + header_noisy.length) "Country" header_noisy

/-- Document type block (source lines 372–378); the apostrophe of the
literal is `squote`. -/
def sfDocType (cfg : NoiseConfig) (o : SimpleOracle) (b : B) : B :=
  let doc_type := chars "CARTE NATIONALE D" ++ squote ++ chars "IDENTITÉ"
  let doc_type_noisy := apply_noise cfg o.docNoise doc_type true
  let doc_start := b.pos
  let b1 := b.appN doc_type_noisy doc_type_noisy.length
  b1.entN doc_start b1.pos "DOC_TYPE" doc_type_noisy

/-- ID number block (source lines 380–390). -/
def sfIdNumber (cfg : NoiseConfig) (o : SimpleOracle) (b : B) : B :=
  let id_label_noisy := apply_noise cfg o.idLabelNoise (chars " N° : ") true
  let b1 := b.appN id_label_noisy id_label_noisy.length
  let id_num := generate_id_number o.idNum
  let id_start := b1.pos
  let b2 := b1.appN id_num id_num.length
  b2.entN id_start b2.pos "DNI" id_num

/-- Nationality label and value block (source lines 392–403). -/
def sfNationality (cfg : NoiseConfig) (o : SimpleOracle) (b : B) : B :=
  let nat_label_noisy := apply_field_typo cfg o.natLabelTypo (chars " Nationalité ")
  let b1 := b.appN nat_label_noisy nat_label_noisy.length
  let nationality := chars "Française"
  let nat_start := b1.pos
  let b2 := b1.appN (nationality ++ chars " ") (nationality.length + 1)
  b2.entN nat_start (b2.pos - 1) "Nationality" nationality

/-- Optional two-letter code block (source lines 409–416).  The source
indexes `given_names_list[0][0]`, which presumes a non-empty first given
name (the Faker provider never returns an empty name); an empty first
name is mapped to the same default as an empty list. -/
def sfTwoLetterCode (sp : SimpleProbs) (o : SimpleOracle)
    (surname : List Char) (given : List (List Char)) (b : B) : B :=
  if o.codeDraw < sp.two_letter_code then
    let c1 := match surname with | c :: _ => c | [] => 'A'
    let c2 := match given with
      | g :: _ => (match g with | c :: _ => c | [] => 'A')
      | [] => 'A'
    let code := [c1, c2]
    b.appN (code ++ chars " ") (code ++ chars " ").length
  else b

/-- Optional signature-noise block before the name (source lines
418–427). -/
def sfSignatureNoise (sp : SimpleProbs) (sig : List (List Char × ℚ))
    (o : SimpleOracle) (b : B) : B :=
  if o.sigGateDraw < sp.signature_noise_before_nom then
    match weighted_choice sig o.sigChoiceDraw with
    | some chosen => if chosen ≠ chars "none" then b.appN chosen chosen.length else b
    | none => b
  else b

/-- Name block (source lines 429–438). -/
def sfName (cfg : NoiseConfig) (o : SimpleOracle) (surname : List Char) (b : B) : B :=
  let name_label_noisy := apply_noise cfg o.nameLabelNoise (chars "Nom : ") true
  let b1 := b.appN name_label_noisy name_label_noisy.length
  let name_start := b1.pos
  let b2 := b1.appN surname surname.length
  b2.entN name_start b2.pos "Name" surname

def socialStatusTypes : List (List Char) :=
  [chars "Epouse: ", chars "Veuve: ", chars "Nom d" ++ squote ++ chars "usage: "]

/-- Optional social-status block (source lines 440–461). -/
def sfSocial (cfg : NoiseConfig) (sp : SimpleProbs) (o : SimpleOracle) (b : B) : B :=
  if o.socialDraw < sp.social_status_fields then
    let social_label := listChoice socialStatusTypes o.socialIdx []
    let social_label_noisy := apply_field_typo cfg o.socialTypo social_label
    let b1 := b.appN (chars " " ++ social_label_noisy) (chars " " ++ social_label_noisy).length
    let alt0 := generate_name o.altRaw
    let alt_start := b1.pos
    let alt_name := if o.hyphenDraw < sp.hyphenated_alt_names then
        alt0 ++ chars "- " ++ generate_name o.altRaw2 else alt0
    let b2 := b1.appN alt_name alt_name.length
    b2.entN alt_start b2.pos "Alt_name" alt_name
  else b

/-- Given-names label block (source lines 463–468). -/
def sfPrenomLabel (cfg : NoiseConfig) (o : SimpleOracle) (b : B) : B :=
  let prenom_label_noisy := apply_field_typo cfg o.prenomTypo (chars "Prénom(s)")
  let prenom_full := chars " " ++ prenom_label_noisy ++ chars ": "
  b.appN prenom_full prenom_full.length

/-- The label `Surname_<i+1>` of the `i`-th (0-based) given name. -/
def surnameLabel (i : Nat) : String := "Surname_" ++ toString (i + 1)

/-- The given-name loop (source lines 470–478, and identically lines
593–601 of the bilingual format): `", "` before every name but the
first, then the name recorded as an entity labelled `Surname_<i+1>`. -/
def givenNamesLoop : Nat → List (List Char) → B → B
  | _, [], b => b
  | i, g :: rest, b =>
    let b1 := if i > 0 then b.appN (chars ", ") 2 else b
    let gname_start := b1.pos
    let b2 := b1.appN g g.length
    let b3 := b2.entN gname_start b2.pos (surnameLabel i) g
    givenNamesLoop (i + 1) rest b3

/-- Gender label block (source lines 480–484). -/
def sfSexLabel (cfg : NoiseConfig) (o : SimpleOracle) (b : B) : B :=
  let sex_label_noisy := apply_field_typo cfg o.sexTypo (chars " Sexe : ")
  b.appN sex_label_noisy sex_label_noisy.length

/-- Gender value block (source lines 486–490); the source advances the
cursor by the constant 1. -/
def sfGender (o : SimpleOracle) (b : B) : B :=
  let gender : List Char := if o.genderIsM then chars "M" else chars "F"
  let gender_start := b.pos
  let b1 := b.appN gender 1
  b1.entN gender_start b1.pos "Gender" gender

/-- Birth-date label block (source lines 492–497). -/
def sfNeLabel (cfg : NoiseConfig) (o : SimpleOracle) (b : B) : B :=
  let ne_label_noisy := apply_field_typo cfg o.neTypo (chars "Né(e)")
  let ne_full := chars " " ++ ne_label_noisy ++ chars " le : "
  b.appN ne_full ne_full.length

/-- Birth-date value block (source lines 499–503). -/
def sfBirthDate (o : SimpleOracle) (b : B) : B :=
  let birth_date := generate_date o.birth
  let birth_date_start := b.pos
  let b1 := b.appN birth_date birth_date.length
  b1.entN birth_date_start b1.pos "Date of birthday" birth_date

/-- Optional birth-place block (source lines 505–516). -/
def sfBirthPlace (sp : SimpleProbs) (o : SimpleOracle) (b : B) : B :=
  if o.birthPlaceDraw < sp.birth_place then
    let b1 := b.appN (chars " à ") (chars " à ").length
    let city := generate_city o.cityRaw
    let city_start := b1.pos
    let b2 := b1.appN city city.length
    b2.entN city_start b2.pos "Birth_place" city
  else b

/-- Optional height block (source lines 518–531). -/
def sfHeight (cfg : NoiseConfig) (sp : SimpleProbs) (o : SimpleOracle) (b : B) : B :=
  if o.heightDraw < sp.height then
    let taille_label_noisy := apply_noise cfg o.tailleNoise (chars "Taille") true
    let taille_full := chars " " ++ taille_label_noisy ++ chars " : "
    let b1 := b.appN taille_full taille_full.length
    let height := generate_height o.height
    let height_start := b1.pos
    let b2 := b1.appN height height.length
    b2.entN height_start b2.pos "Height" height
  else b

/-- Optional trailing signature block (source lines 533–540). -/
def sfSignature (cfg : NoiseConfig) (sp : SimpleProbs) (o : SimpleOracle) (b : B) : B :=
  if o.sigDraw < sp.optional_signature then
    let sig_label_noisy := apply_noise cfg o.sigLabelNoise (chars "Signature du titulaire") true
    let sig_full := chars " " ++ sig_label_noisy ++ chars " :"
    b.appN sig_full sig_full.length
  else b

/-- `FakerIDGenerator.generate_simple_format` (source lines 353–543),
returning the final buffer (`text = "".join(parts)`, the entity list,
and the final cursor). -/
def generate_simple_format (cfg : NoiseConfig) (sp : SimpleProbs)
    (sig : List (List Char × ℚ)) (o : SimpleOracle) : B :=
  let surname := generate_name o.surnameRaw
  let given := generate_given_names o.givenRaw
  B0 |> sfHeader cfg o |> sfDocType cfg o |> sfIdNumber cfg o |> sfNationality cfg o
     |> sfTwoLetterCode sp o surname given |> sfSignatureNoise sp sig o
     |> sfName cfg o surname |> sfSocial cfg sp o |> sfPrenomLabel cfg o
     |> givenNamesLoop 0 given |> sfSexLabel cfg o |> sfGender o |> sfNeLabel cfg o
     |> sfBirthDate o |> sfBirthPlace sp o |> sfHeight cfg sp o |> sfSignature cfg sp o

/-! ## Bilingual format (source lines 545–724) -/

/-- Per-format field-inclusion probabilities (`self.bilingual_probs`). -/
structure BilingualProbs where
  birth_place : ℚ
  alt_name_married : ℚ
  expiry_date : ℚ
  support_number : ℚ
deriving DecidableEq

/-- All random draws and provider results one `generate_bilingual_format`
call consumes, in source order. -/
structure BilingualOracle where
  headerIdx : Nat
  headerNoise : NoiseOracle
  docNoise : NoiseOracle
  nameTypo : TypoOracle
  surnameRaw : List Char
  givenTypo : TypoOracle
  givenRaw : List (List Char)
  sexTypo : TypoOracle
  natTypo : TypoOracle
  genderIsM : Bool
  natIdx : Nat
  birth : DateOracle
  birthPlaceDraw : ℚ
  cityRaw : List Char
  altDraw : ℚ
  altTypo : TypoOracle
  altRaw : List Char
  idNum : IdOracle
  expiryDraw : ℚ
  expiry : ExpiryOracle
  supportDraw : ℚ
  sigChoiceDraw : ℚ
  twoLetterIdx : Nat
  digitLenIs3 : Bool
  digitDraws : List Nat
  support : Nat
deriving DecidableEq

/-- Header block (source lines 550–561). -/
def bfHeader (cfg : NoiseConfig) (o : BilingualOracle) (b : B) : B :=
  let header := listChoice headerVariants o.headerIdx []
  let header_noisy := apply_noise cfg o.headerNoise header true
  let country_start := b.pos
  let b1 := b.appN header_noisy header_noisy.length
  b1.entN country_start b1.pos "Country" header_noisy

/-- The fixed `" FR "` literal (source lines 563–565); the source
advances the cursor by the constant 4. -/
def bfFR (b : B) : B := b.appN (chars " FR ") 4

/-- Document type block (source lines 567–573). -/
def bfDocType (cfg : NoiseConfig) (o : BilingualOracle) (b : B) : B :=
  let doc_type := chars "CARTE NATIONALE D" ++ squote ++ chars "IDENTITÉ / IDENTITY CARD"
  let doc_type_noisy := apply_noise cfg o.docNoise doc_type true
  let doc_start := b.pos
  let b1 := b.appN doc_type_noisy doc_type_noisy.length
  b1.entN doc_start b1.pos "DOC_TYPE" doc_type_noisy

/-- Name block (source lines 575–584). -/
def bfName (cfg : NoiseConfig) (o : BilingualOracle) (surname : List Char) (b : B) : B :=
  let field_label := apply_field_typo cfg o.nameTypo (chars " NOM/Sumame ")
  let b1 := b.appN field_label field_label.length
  let name_start := b1.pos
  let b2 := b1.appN surname surname.length
  b2.entN name_start b2.pos "Name" surname

/-- Given-names label block (source lines 586–589); the loop itself is
`givenNamesLoop`. -/
def bfGivenLabel (cfg : NoiseConfig) (o : BilingualOracle) (b : B) : B :=
  let given_label := apply_field_typo cfg o.givenTypo (chars " Prénoms / Given names ")
  b.appN given_label given_label.length

/-- Gender label block (source lines 603–606). -/
def bfSexLabel (cfg : NoiseConfig) (o : BilingualOracle) (b : B) : B :=
  let gender_label := apply_field_typo cfg o.sexTypo (chars " SEXE /Sex ")
  b.appN gender_label gender_label.length

/-- Nationality label block (source lines 608–611). -/
def bfNatLabel (cfg : NoiseConfig) (o : BilingualOracle) (b : B) : B :=
  let nat_label := apply_field_typo cfg o.natTypo (chars " NATIONALITÉ / Nationality ")
  b.appN nat_label nat_label.length

/-- Birth-date label block (source lines 613–616), a plain literal. -/
def bfDateLabel (b : B) : B :=
  let date_label := chars "DATE DE NAISS. / Date of birth "
  b.appN date_label date_label.length

/-- Gender value block (source lines 618–623); the source advances the
cursor by the constant 2 and records the span `[start, start + 1)`. -/
def bfGender (o : BilingualOracle) (b : B) : B :=
  let gender : List Char := if o.genderIsM then chars "M" else chars "F"
  let gender_start := b.pos
  let b1 := b.appN (gender ++ chars " ") 2
  b1.entN gender_start (gender_start + 1) "Gender" gender

def nationalityCodes : List (List Char) :=
  [chars "FRA", chars "ESP", chars "PRT", chars "ITA",
   chars "BEL", chars "MAR", chars "TUN", chars "DZA"]

/-- Nationality value block (source lines 625–630). -/
def bfNationality (o : BilingualOracle) (b : B) : B :=
  let nationality := listChoice nationalityCodes o.natIdx []
  let nat_start := b.pos
  let b1 := b.appN (nationality ++ chars " ") (nationality.length + 1)
  b1.entN nat_start (b1.pos - 1) "Nationality" nationality

/-- Birth-date value block (source lines 632–637). -/
def bfBirthDate (o : BilingualOracle) (b : B) : B :=
  let birth_date := generate_date o.birth
  let birth_date_start := b.pos
  let b1 := b.appN birth_date birth_date.length
  b1.entN birth_date_start b1.pos "Date of birthday" birth_date

/-- Optional birth-place block (source lines 639–650). -/
def bfBirthPlace (bp : BilingualProbs) (o : BilingualOracle) (b : B) : B :=
  if o.birthPlaceDraw < bp.birth_place then
    let birth_place_label := chars " LIEU DE NAISSANCE / Place of birth "
    let b1 := b.appN birth_place_label birth_place_label.length
    let city := generate_city o.cityRaw
    let city_start := b1.pos
    let b2 := b1.appN city city.length
    b2.entN city_start b2.pos "Birth_place" city
  else b

/-- Optional guardian/alternate-name block (source lines 652–664). -/
def bfAltName (cfg : NoiseConfig) (bp : BilingualProbs) (o : BilingualOracle) (b : B) : B :=
  if o.altDraw < bp.alt_name_married then
    let guardian_label := chars " NOM D" ++ squote ++ chars "USAGE / Alternate name ép. "
    let guardian_label_noisy := apply_field_typo cfg o.altTypo guardian_label
    let b1 := b.appN guardian_label_noisy guardian_label_noisy.length
    let guardian_name := generate_name o.altRaw
    let guardian_start := b1.pos
    let b2 := b1.appN guardian_name guardian_name.length
    b2.entN guardian_start b2.pos "Alt_name" guardian_name
  else b

/-- Document-number block (source lines 666–674). -/
def bfDocNumber (o : BilingualOracle) (b : B) : B :=
  let doc_num_label := chars " N° DU DOCUMENT / Document No "
  let b1 := b.appN doc_num_label doc_num_label.length
  let id_num := generate_id_number o.idNum
  let id_start := b1.pos
  let b2 := b1.appN id_num id_num.length
  b2.entN id_start b2.pos "DNI" id_num

/-- Optional expiry-date block (source lines 676–687); the assumed birth
year is the literal 1980. -/
def bfExpiry (cfg : NoiseConfig) (bp : BilingualProbs) (o : BilingualOracle) (b : B) : B :=
  if o.expiryDraw < bp.expiry_date then
    let expiry_label := chars " DATE D" ++ squote ++ chars "EXPIR. / Expiry date "
    let b1 := b.appN expiry_label expiry_label.length
    let expiry := generate_expiry_date 1980 o.expiry
    let expiry_start := b1.pos
    let b2 := b1.appN expiry expiry.length
    b2.entN expiry_start b2.pos "Validity_date" expiry
  else b

def twoLetterNoises : List (List Char) :=
  [chars "AB ", chars "BA ", chars "CA ", chars "DA ",
   chars "KA ", chars "RA ", chars "SA "]

/-- Optional support-number block with signature noise (source lines
689–720).  The `"MA "` and random-two-letter branches advance the cursor
by the constant 3; the random-digit branch advances by the built string's
length. -/
def bfSupport (bp : BilingualProbs) (sigB : List (List Char × ℚ)) (o : BilingualOracle)
    (b : B) : B :=
  if o.supportDraw < bp.support_number then
    let b1 := b.appN (chars " ") 1
    let chosen := weighted_choice sigB o.sigChoiceDraw
    let b2 :=
      match chosen with
      | some cn =>
        if cn = chars "MA " then b1.appN (chars "MA ") 3
        else if cn = chars "random_2letter" then
          let noise := listChoice twoLetterNoises o.twoLetterIdx []
          b1.appN noise 3
        else if cn = chars "random_digits" then
          let noise_len : Nat := if o.digitLenIs3 then 3 else 2
          let noise := digitsStr o.digitDraws noise_len ++ chars " "
          b1.appN noise noise.length
        else b1
      | none => b1
    let support := natToChars o.support
    let support_start := b2.pos
    let b3 := b2.appN support support.length
    b3.entN support_start b3.pos "Support_number" support
  else b

/-- `FakerIDGenerator.generate_bilingual_format` (source lines 545–724). -/
def generate_bilingual_format (cfg : NoiseConfig) (bp : BilingualProbs)
    (sigB : List (List Char × ℚ)) (o : BilingualOracle) : B :=
  let surname := generate_name o.surnameRaw
  let given := generate_given_names o.givenRaw
  B0 |> bfHeader cfg o |> bfFR |> bfDocType cfg o |> bfName cfg o surname
     |> bfGivenLabel cfg o |> givenNamesLoop 0 given |> bfSexLabel cfg o
     |> bfNatLabel cfg o |> bfDateLabel |> bfGender o |> bfNationality o
     |> bfBirthDate o |> bfBirthPlace bp o |> bfAltName cfg bp o
     |> bfDocNumber o |> bfExpiry cfg bp o |> bfSupport bp sigB o

/-! ## Sample well-formedness -/

/-- A recorded entity is valid for a text: its span is within bounds in
the weak sense that slicing reproduces the recorded value, and the span
is well-oriented. -/
def EntOk (t : List Char) (e : Entity) : Prop :=
  pySlice t e.start e.stop = e.value ∧ e.start ≤ e.stop

/-- Invariant of the in-progress buffer: the cursor equals the text
length, every recorded entity's span already lies inside the text and
slices to its value, and entities are recorded left to right without
overlap. -/
def BOk (b : B) : Prop :=
  b.pos = b.text.length ∧
  (∀ e ∈ b.entities, EntOk b.text e ∧ e.stop ≤ b.pos) ∧
  List.Chain' (fun e₁ e₂ => e₁.stop ≤ e₂.start) b.entities

/-! ## Concrete configurations and oracles used in witnesses and
counterexamples -/

/-- A noise oracle whose draws are all zero. -/
def noNoiseOracle : NoiseOracle := ⟨0, 0, [], 0, [], 0, []⟩

def noTypoOracle : TypoOracle := ⟨0, 0, noNoiseOracle⟩

/-- Noise globally disabled, empty tables. -/
def cfgOff : NoiseConfig := ⟨false, 0, 0, 0, 0, 0, 0, 0, [], [], [], [], []⟩

/-- Noise nominally enabled but with every probability zero. -/
def cfgZeroOn : NoiseConfig := ⟨true, 0, 0, 0, 0, 0, 0, 0, [], [], [], [], []⟩

/-- All optional-field inclusion probabilities zero. -/
def spZero : SimpleProbs := ⟨0, 0, 0, 0, 0, 0, 0⟩

def bpZero : BilingualProbs := ⟨0, 0, 0, 0⟩

/-- A deterministic simple-format oracle: no optional fields fire, the
provider returns `dupont` / `Ana`, the ID number is 12 zeros and the
birth date is `01.02.1990`. -/
def oSimpleW : SimpleOracle :=
  { headerIdx := 0, headerNoise := noNoiseOracle, docNoise := noNoiseOracle
    idLabelNoise := noNoiseOracle, idNum := ⟨0, [], [], 0, 0, 0⟩
    natLabelTypo := noTypoOracle, surnameRaw := chars "dupont"
    givenRaw := [chars "Ana"], codeDraw := 1, sigGateDraw := 1, sigChoiceDraw := 0
    nameLabelNoise := noNoiseOracle, socialDraw := 1, socialIdx := 0
    socialTypo := noTypoOracle, altRaw := [], hyphenDraw := 1, altRaw2 := []
    prenomTypo := noTypoOracle, sexTypo := noTypoOracle, genderIsM := true
    neTypo := noTypoOracle, birth := ⟨1, 2, 1990, true⟩, birthPlaceDraw := 1
    cityRaw := [], heightDraw := 1, height := ⟨1, 75, true, true⟩
    tailleNoise := noNoiseOracle, sigDraw := 1, sigLabelNoise := noNoiseOracle }

/-- A deterministic bilingual-format oracle with no optional fields. -/
def oBilingualW : BilingualOracle :=
  { headerIdx := 0, headerNoise := noNoiseOracle, docNoise := noNoiseOracle
    nameTypo := noTypoOracle, surnameRaw := chars "dupont", givenTypo := noTypoOracle
    givenRaw := [chars "Ana"], sexTypo := noTypoOracle, natTypo := noTypoOracle
    genderIsM := true, natIdx := 0, birth := ⟨1, 2, 1990, true⟩, birthPlaceDraw := 1
    cityRaw := [], altDraw := 1, altTypo := noTypoOracle, altRaw := []
    idNum := ⟨0, [], [], 0, 0, 0⟩, expiryDraw := 1, expiry := ⟨18, 1, 1⟩
    supportDraw := 1, sigChoiceDraw := 0, twoLetterIdx := 0, digitLenIs3 := false
    digitDraws := [], support := 123456 }

/-- Per-character oracles whose drop draw is 0, so that with
`missing_char_prob = 1` (a legal configuration value) every character is
deleted, as every real draw in `[0,1)` also would be. -/
def dropAllCharOracles : List CharOracle := List.replicate 64 ⟨0, 0, 0, 0, 0⟩

def dropNoiseOracle : NoiseOracle := ⟨0, 0, [], 0, [], 0, dropAllCharOracles⟩

def dropTypoOracle : TypoOracle := ⟨0, 0, dropNoiseOracle⟩

/-- Character-deletion noise always on: global gate probability 1 and
`char_missing` probability 1. -/
def cfgDropAll : NoiseConfig := ⟨true, 1, 0, 0, 0, 0, 1, 0, [], [], [], [], []⟩

/-- The witness simple-format oracle, but with noise oracles whose draws
make the deletion noise of `cfgDropAll` erase every noised label. -/
def oSimpleDrop : SimpleOracle :=
  { oSimpleW with
    headerNoise := dropNoiseOracle, docNoise := dropNoiseOracle
    idLabelNoise := dropNoiseOracle, natLabelTypo := dropTypoOracle
    nameLabelNoise := dropNoiseOracle, prenomTypo := dropTypoOracle
    sexTypo := dropTypoOracle, neTypo := dropTypoOracle }

/-- Substitution and duplication always firing, with `A` substituted by
`B`. -/
def cfgSubDup : NoiseConfig :=
  ⟨true, 1, 0, 0, 1, 0, 0, 1, [], [], [('A', chars "B")], [], []⟩

/-- All noise probabilities zero, but the field-typo table lists a typo
for `Nationalité`. -/
def cfgTypoClean : NoiseConfig :=
  ⟨true, 0, 0, 0, 0, 0, 0, 0, [], [], [], [],
   [(chars "Nationalité", [chars "Nationalita"])]⟩

/-- A field-typo table where `ab` has an exact entry while the distinct
key `a` also occurs inside the label `ab` as a substring. -/
def cfgExact : NoiseConfig :=
  ⟨true, 0, 0, 0, 0, 0, 0, 0, [], [], [], [],
   [(chars "ab", [chars "x"]), (chars "a", [chars "y"])]⟩

/-! ## Basic slicing lemmas -/

/-- Appending text never changes an already in-bounds slice. -/
theorem pySlice_frozen {t : List Char} (s : List Char) {a b : Nat} (hb : b ≤ t.length) :
    pySlice (t ++ s) a b = pySlice t a b := by
  unfold pySlice
  by_cases hab : a ≤ b
  · rw [List.drop_append_of_le_length (le_trans hab hb),
      List.take_append_of_le_length (by rw [List.length_drop]; omega)]
  · have : b - a = 0 := by omega
    simp [this]

/-- The slice of freshly appended text at the old end of the buffer. -/
theorem pySlice_at_end (t s : List Char) (k : Nat) :
    pySlice (t ++ s) t.length (t.length + k) = s.take k := by
  unfold pySlice
  rw [List.drop_left]
  congr 1
  omega

/-! ## Stripping lemmas -/

theorem dropWhile_head_not {p : Char → Bool} {l : List Char} {c : Char}
    (h : (l.dropWhile p).head? = some c) : p c = false := by
  have hx := List.head?_dropWhile_not p l
  rw [h] at hx
  exact hx

theorem dropTrail_head {p : Char → Bool} : ∀ {l : List Char} {c : Char},
    (dropTrail p l).head? = some c → l.head? = some c := by
  intro l c h
  cases l with
  | nil => simp [dropTrail] at h
  | cons a rest =>
    rw [dropTrail] at h
    split at h
    · simp at h
    · simp only [List.head?_cons, Option.some.injEq] at h
      simp [h]

theorem dropTrail_getLast_not {p : Char → Bool} : ∀ {l : List Char} {c : Char},
    (dropTrail p l).getLast? = some c → p c = false := by
  intro l
  induction l with
  | nil => intro c h; simp [dropTrail] at h
  | cons a rest ih =>
    intro c h
    rw [dropTrail] at h
    split at h
    · simp at h
    · rename_i hcond
      cases hrest : dropTrail p rest with
      | nil =>
        rw [hrest] at h
        simp only [List.getLast?_singleton, Option.some.injEq] at h
        subst h
        rw [hrest] at hcond
        simp only [true_and] at hcond
        exact Bool.not_eq_true _ ▸ (by simpa using hcond)
      | cons b t =>
        rw [hrest] at h
        rw [List.getLast?_cons_cons] at h
        exact ih (hrest ▸ h)

/-! ## Weighted-choice lemmas -/

theorem partialSum_cons {α : Type} (k : α) (w : ℚ) (rest : List (α × ℚ)) (m : Nat) :
    partialSum ((k, w) :: rest) (m + 1) = w + partialSum rest m := by
  simp [partialSum, List.take_succ_cons]

theorem partialSum_zero {α : Type} (l : List (α × ℚ)) : partialSum l 0 = 0 := by
  simp [partialSum]

theorem totalWeight_cons {α : Type} (k : α) (w : ℚ) (rest : List (α × ℚ)) :
    totalWeight ((k, w) :: rest) = w + totalWeight rest := by
  simp [totalWeight]

theorem totalWeight_nonneg {α : Type} {l : List (α × ℚ)} (h : ∀ p ∈ l, 0 ≤ p.2) :
    0 ≤ totalWeight l := by
  apply List.sum_nonneg
  intro x hx
  obtain ⟨p, hp, hpx⟩ := List.mem_map.mp hx
  exact hpx ▸ h p hp

theorem wl_first {α : Type} (r : ℚ) :
    ∀ (l : List (α × ℚ)) (cum : ℚ) (i : Nat) (hi : i < l.length),
      r ≤ cum + partialSum l (i + 1) →
      (∀ j, j < i → cum + partialSum l (j + 1) < r) →
      weightedLoop r cum l = some (l.get ⟨i, hi⟩).1 := by
  intro l
  induction l with
  | nil => intro cum i hi; simp at hi
  | cons p rest ih =>
    obtain ⟨k, w⟩ := p
    intro cum i hi hle hfirst
    cases i with
    | zero =>
      rw [partialSum_cons, partialSum_zero, add_zero] at hle
      rw [weightedLoop, if_pos hle]
      rfl
    | succ i' =>
      have h0 := hfirst 0 (Nat.succ_pos i')
      rw [partialSum_cons, partialSum_zero, add_zero] at h0
      rw [weightedLoop, if_neg (not_le.mpr h0)]
      have hle' : r ≤ (cum + w) + partialSum rest (i' + 1) := by
        rw [partialSum_cons] at hle
        linarith
      have hfirst' : ∀ j, j < i' → (cum + w) + partialSum rest (j + 1) < r := by
        intro j hj
        have := hfirst (j + 1) (by omega)
        rw [partialSum_cons] at this
        linarith
      have := ih (cum + w) i' (by simpa using hi) hle' hfirst'
      rw [this]
      rfl

theorem wl_isSome {α : Type} (r : ℚ) :
    ∀ (l : List (α × ℚ)) (cum : ℚ), l ≠ [] → r ≤ cum + totalWeight l →
      (weightedLoop r cum l).isSome := by
  intro l
  induction l with
  | nil => intro cum h; exact absurd rfl h
  | cons p rest ih =>
    obtain ⟨k, w⟩ := p
    intro cum _ hle
    rw [weightedLoop]
    by_cases hc : r ≤ cum + w
    · rw [if_pos hc]; rfl
    · rw [if_neg hc]
      cases rest with
      | nil =>
        exfalso
        rw [totalWeight_cons] at hle
        simp only [totalWeight, List.map_nil, List.sum_nil, add_zero] at hle
        exact hc hle
      | cons q t =>
        apply ih (cum + w) (by simp)
        rw [totalWeight_cons] at hle
        linarith

theorem wl_mem {α : Type} (r : ℚ) :
    ∀ (l : List (α × ℚ)) (cum : ℚ) (k : α),
      weightedLoop r cum l = some k → k ∈ l.map Prod.fst := by
  intro l
  induction l with
  | nil => intro cum k h; simp [weightedLoop] at h
  | cons p rest ih =>
    obtain ⟨k0, w⟩ := p
    intro cum k h
    rw [weightedLoop] at h
    split at h
    · simp only [Option.some.injEq] at h
      simp [h]
    · simpa using Or.inr (by simpa using ih (cum + w) k h)

theorem wl_none {α : Type} (r : ℚ) :
    ∀ (l : List (α × ℚ)) (cum : ℚ), (∀ p ∈ l, 0 ≤ p.2) →
      cum + totalWeight l < r → weightedLoop r cum l = none := by
  intro l
  induction l with
  | nil => intro cum _ _; rfl
  | cons p rest ih =>
    obtain ⟨k, w⟩ := p
    intro cum hw hlt
    rw [totalWeight_cons] at hlt
    have hrest : 0 ≤ totalWeight rest :=
      totalWeight_nonneg (fun q hq => hw q (List.mem_cons_of_mem _ hq))
    rw [weightedLoop, if_neg (by push_neg; linarith)]
    exact ih (cum + w) (fun q hq => hw q (List.mem_cons_of_mem _ hq)) (by linarith)

theorem lastMem {α : Type} (l : List α) (h : l ≠ []) :
    ∃ k, l.getLast? = some k ∧ k ∈ l := by
  obtain ⟨k, hk⟩ := Option.isSome_iff_exists.mp (List.getLast?_isSome.mpr h)
  exact ⟨k, hk, List.mem_of_mem_getLast? (by rw [hk]; exact rfl)⟩

/-- C2.  `_weighted_choice` on a non-empty probability table with a draw
in `[0,1)`: (1) it returns the first option in table order whose
cumulative probability mass meets or exceeds the draw; (2) if the masses
sum to exactly 1 every draw resolves to some table key; (3) if they sum
to less than the draw (the rounding-error case for tables summing to
under 1) it returns the last key in table order, never an error. -/
theorem weighted_choice_spec {α : Type} (choices : List (α × ℚ)) (r : ℚ)
    (hne : choices ≠ []) (hw : ∀ p ∈ choices, 0 ≤ p.2) (h0 : 0 ≤ r) (h1 : r < 1) :
    (∀ i (hi : i < choices.length),
       r ≤ partialSum choices (i + 1) →
       (∀ j, j < i → partialSum choices (j + 1) < r) →
       weighted_choice choices r = some (choices.get ⟨i, hi⟩).1) ∧
    (totalWeight choices = 1 →
       ∃ k, weighted_choice choices r = some k ∧ k ∈ choices.map Prod.fst) ∧
    (totalWeight choices < r →
       ∃ k, weighted_choice choices r = some k ∧
         (choices.map Prod.fst).getLast? = some k) := by
  refine ⟨?_, ?_, ?_⟩
  · intro i hi hle hfirst
    have := wl_first r choices 0 i hi (by rwa [zero_add]) (by
      intro j hj
      have := hfirst j hj
      rwa [zero_add])
    unfold weighted_choice
    rw [this]
  · intro htotal
    have hs : (weightedLoop r 0 choices).isSome :=
      wl_isSome r choices 0 hne (by rw [zero_add, htotal]; exact le_of_lt h1)
    obtain ⟨k, hk⟩ := Option.isSome_iff_exists.mp hs
    refine ⟨k, ?_, wl_mem r choices 0 k hk⟩
    unfold weighted_choice
    rw [hk]
  · intro hlt
    have hn : weightedLoop r 0 choices = none :=
      wl_none r choices 0 hw (by rwa [zero_add])
    obtain ⟨k, hk, _⟩ := lastMem (choices.map Prod.fst) (by simpa using hne)
    refine ⟨k, ?_, hk⟩
    unfold weighted_choice
    rw [hn, hk]

/-- Witness for C2 at the table `[(a, 0), (b, 1)]` and draw 0: the first
option whose cumulative mass reaches the draw is `a` (at index 0). -/
theorem weighted_choice_spec_witness :
    weighted_choice [("a", (0 : ℚ)), ("b", 1)] 0 = some "a" := by
  have h := weighted_choice_spec [("a", (0 : ℚ)), ("b", 1)] 0
    (by decide) (by decide) (by decide) (by decide)
  exact h.1 0 (by decide) (by norm_num [partialSum]) (by omega)

/-- C10.  `_weighted_choice` on the empty table returns no value (Python
raises `IndexError` taking the last key of an empty dict), and on every
non-empty table it is total with a result that is always one of the
table's keys. -/
theorem weighted_choice_empty_total {α : Type} (r : ℚ) (choices : List (α × ℚ)) :
    weighted_choice ([] : List (α × ℚ)) r = none ∧
    (choices ≠ [] → ∃ k, weighted_choice choices r = some k ∧ k ∈ choices.map Prod.fst) := by
  constructor
  · rfl
  · intro hne
    unfold weighted_choice
    cases hk : weightedLoop r 0 choices with
    | some k => exact ⟨k, rfl, wl_mem r choices 0 k hk⟩
    | none =>
      obtain ⟨k, hl, hm⟩ := lastMem (choices.map Prod.fst) (by simpa using hne)
      exact ⟨k, hl, hm⟩

/-- Witness for C10 at the singleton table `[(a, 1)]` and draw 1/2. -/
theorem weighted_choice_empty_total_witness :
    ∃ k, weighted_choice [("a", (1 : ℚ))] (1/2) = some k ∧
      k ∈ ([("a", (1 : ℚ))].map Prod.fst) :=
  (weighted_choice_empty_total (1/2) [("a", (1 : ℚ))]).2 (by decide)

/-! ## Noise-engine lemmas -/

theorem listChoice_mem {α : Type} (l : List α) (i : Nat) (d : α) (h : l ≠ []) :
    listChoice l i d ∈ l := by
  unfold listChoice
  have hm : i % l.length < l.length := Nat.mod_lt _ (List.length_pos.mpr h)
  rw [List.getD_eq_getElem l d hm]
  exact List.getElem_mem hm

/-- The three early-return gates of `apply_noise` return the text
unchanged. -/
theorem apply_noise_gate {cfg : NoiseConfig} {o : NoiseOracle} {text : List Char}
    {allow : Bool}
    (h : cfg.noise_enabled = false ∨ allow = false ∨ o.gateDraw > cfg.global_prob) :
    apply_noise cfg o text allow = text := by
  unfold apply_noise
  rw [if_pos h]

/-- With all noise probabilities zero and non-negative draws, no noise
branch can fire, so `apply_noise` is the identity even when the global
gate passes. -/
theorem apply_noise_probs_zero {cfg : NoiseConfig} (hz : zeroProbs cfg) (o : NoiseOracle)
    (hw : 0 ≤ o.wordDraw) (hs : 0 ≤ o.spacingDraw) (hc : 0 ≤ o.charDraw)
    (text : List Char) (allow : Bool) : apply_noise cfg o text allow = text := by
  obtain ⟨hg, hw0, hs0, hsub, hex, hmiss, hd⟩ := hz
  unfold apply_noise
  split
  · rfl
  · have h1 : ¬ (o.wordDraw < cfg.word_noise_prob) := by rw [hw0]; exact not_lt.mpr hw
    have h2 : ¬ (o.spacingDraw < cfg.spacing_noise_prob) := by rw [hs0]; exact not_lt.mpr hs
    have h3 : ¬ (o.charDraw < cfg.char_sub_prob + cfg.extra_char_prob + cfg.missing_char_prob) := by
      rw [hsub, hex, hmiss]
      simpa using not_lt.mpr hc
    simp [h1, h2, h3]

/-- C4.  `apply_noise` is the identity (1) under the `_set_zero_noise`
configuration, (2) whenever every noise probability is zero even with the
enabled flag nominally on, and (3) whenever noise is globally disabled,
the `allow_noise` flag is false, or the global probability gate fails. -/
theorem apply_noise_clean (cfg : NoiseConfig) (o : NoiseOracle) (text : List Char)
    (allow : Bool) :
    (apply_noise (set_zero_noise cfg) o text allow = text) ∧
    (0 ≤ o.wordDraw → 0 ≤ o.spacingDraw → 0 ≤ o.charDraw → zeroProbs cfg →
       apply_noise cfg o text allow = text) ∧
    ((cfg.noise_enabled = false ∨ allow = false ∨ o.gateDraw > cfg.global_prob) →
       apply_noise cfg o text allow = text) := by
  refine ⟨?_, ?_, ?_⟩
  · exact apply_noise_gate (Or.inl rfl)
  · intro hw hs hc hz
    exact apply_noise_probs_zero hz o hw hs hc text allow
  · exact apply_noise_gate

/-- Witness for C4: the all-zero enabled configuration with all-zero
draws leaves `abc` unchanged. -/
theorem apply_noise_clean_witness :
    apply_noise cfgZeroOn noNoiseOracle (chars "abc") true = chars "abc" :=
  (apply_noise_clean cfgZeroOn noNoiseOracle (chars "abc") true).2.1
    (by decide) (by decide) (by decide) (by decide)

/-- C3 (amended).  One step of `_apply_character_noise`: the
per-character decisions compose in the order drop → substitute → emit →
duplicate → insert, the drop check short-circuits the rest, and the
duplication branch appends the *original* input character (the source's
`result.append(char)`), not the possibly substituted emitted one. -/
theorem applyCharNoise_step (cfg : NoiseConfig) (o : CharOracle) (os : List CharOracle)
    (c : Char) (rest : List Char) :
    applyCharNoise cfg (o :: os) (c :: rest) =
      (if o.dropDraw < cfg.missing_char_prob then []
       else
         (match lookupAssoc cfg.char_subs c with
          | some sub => if o.subDraw < cfg.char_sub_prob then sub else [c]
          | none => [c]) ++
         ((if o.dupDraw < cfg.double_char_prob then [c] else []) ++
          (if o.insDraw < cfg.extra_char_prob then listChoice cfg.extra_chars o.insIdx []
           else []))) ++
      applyCharNoise cfg os rest := by
  rw [applyCharNoise]
  simp only [List.headD_cons, List.tail_cons]
  split
  · simp
  · cases hl : lookupAssoc cfg.char_subs c <;>
      simp only [hl] <;> split <;> split <;> simp

/-- Counterexample for C3 as stated: with the substitution `A → B` and
both substitution and duplication firing, the source emits `B` then
duplicates the *original* `A`, producing `BA`, while the spec's
"duplicate the just-emitted character" would produce `BB`. -/
theorem applyCharNoise_dup_cex :
    applyCharNoise cfgSubDup [⟨0, 0, 0, 0, 0⟩] [ 'A' ] = chars "BA" ∧
    applyCharNoiseSpecDup cfgSubDup [⟨0, 0, 0, 0, 0⟩] [ 'A' ] = chars "BB" ∧
    applyCharNoise cfgSubDup [⟨0, 0, 0, 0, 0⟩] [ 'A' ] ≠
      applyCharNoiseSpecDup cfgSubDup [⟨0, 0, 0, 0, 0⟩] [ 'A' ] := by decide

/-- Counterexample for C5 as stated: with every noise probability zero,
a label whose substring has a field-typo table entry is still replaced,
because `apply_field_typo`'s first two tiers ignore the noise
probabilities entirely. -/
theorem field_typo_clean_cex :
    zeroProbs cfgTypoClean ∧
    apply_field_typo cfgTypoClean noTypoOracle (chars " Nationalité ") =
      chars " Nationalita " ∧
    chars " Nationalita " ≠ chars " Nationalité " := by decide

/-- C5 (amended).  With all noise probabilities zero, a field label is
returned unmodified by `apply_field_typo` provided the field-typo table
has no exact entry and no substring match for it (only then does the
label reach the probability-gated generic noise tier). -/
theorem field_typo_clean_amended (cfg : NoiseConfig) (o : TypoOracle) (l : List Char)
    (hz : zeroProbs cfg)
    (hw : 0 ≤ o.noise.wordDraw) (hs : 0 ≤ o.noise.spacingDraw) (hc : 0 ≤ o.noise.charDraw)
    (hexact : lookupAssoc cfg.field_typos l = none)
    (hsub : firstSubstringMatch cfg.field_typos l = none) :
    apply_field_typo cfg o l = l := by
  simp only [apply_field_typo, hexact, hsub]
  exact apply_noise_probs_zero hz o.noise hw hs hc l true

/-- Witness for C5 (amended): `Hello` matches nothing in
`cfgTypoClean`'s table and is returned unchanged. -/
theorem field_typo_clean_amended_witness :
    apply_field_typo cfgTypoClean noTypoOracle (chars "Hello") = chars "Hello" :=
  field_typo_clean_amended cfgTypoClean noTypoOracle (chars "Hello")
    (by decide) (by decide) (by decide) (by decide) (by decide) (by decide)

/-- C6.  `apply_field_typo` resolves an exact table entry first: whenever
the label has an exact entry with non-empty variants, the result is one
of that entry's variants, regardless of any other table key occurring as
a substring of the label. -/
theorem field_typo_exact_first (cfg : NoiseConfig) (o : TypoOracle) (l : List Char)
    (variants : List (List Char)) (h : lookupAssoc cfg.field_typos l = some variants)
    (hne : variants ≠ []) :
    apply_field_typo cfg o l ∈ variants := by
  simp only [apply_field_typo, h]
  exact listChoice_mem variants o.exactIdx [] hne

/-- Witness for C6: in `cfgExact` the label `ab` has an exact entry with
variants `[x]` while the distinct key `a` occurs in `ab` as a substring;
the exact entry wins. -/
theorem field_typo_exact_first_witness :
    apply_field_typo cfgExact noTypoOracle (chars "ab") ∈ [chars "x"] :=
  field_typo_exact_first cfgExact noTypoOracle (chars "ab") [chars "x"]
    (by decide) (by decide)

/-! ## `generate_city` lemmas (C9) -/

/-- Counterexample for C9 as stated: removing `CITY` from the uppercased
provider name `ViCityLLE` creates a fresh occurrence of `VILLE`, which the
earlier `VILLE` pass can no longer remove, so the returned city contains
`VILLE`. -/
theorem generate_city_cex :
    generate_city (chars "ViCityLLE") = chars "VILLE" ∧
    containsSub (chars "VILLE") (generate_city (chars "ViCityLLE")) = true := by decide

/-- C9 (amended).  Every `generate_city` result is at most 20 characters,
is the 20-character truncation of the stripped cleanup result, and the
pre-truncation string carries no leading or trailing whitespace; the
sequential single-pass removals may however re-create occurrences of the
removed substrings (see the counterexample). -/
theorem generate_city_bounds (raw : List Char) :
    (generate_city raw).length ≤ 20 ∧
    generate_city raw = (cityPreTrunc raw).take 20 ∧
    (∀ c, (cityPreTrunc raw).head? = some c → c.isWhitespace = false) ∧
    (∀ c, (cityPreTrunc raw).getLast? = some c → c.isWhitespace = false) := by
  refine ⟨?_, rfl, ?_, ?_⟩
  · unfold generate_city
    rw [List.length_take]
    exact min_le_left _ _
  · intro c h
    unfold cityPreTrunc pyStrip at h
    exact dropWhile_head_not (dropTrail_head h)
  · intro c h
    unfold cityPreTrunc pyStrip at h
    exact dropTrail_getLast_not h

/-- Witness for C9 (amended) at the provider name `  Lyon `. -/
theorem generate_city_bounds_witness :
    (generate_city (chars "  Lyon ")).length ≤ 20 ∧ ('L').isWhitespace = false :=
  ⟨(generate_city_bounds (chars "  Lyon ")).1,
   (generate_city_bounds (chars "  Lyon ")).2.2.1 'L' (by decide)⟩

/-! ## Buffer invariant lemmas -/

@[simp] theorem appN_text (b : B) (s : List Char) (n : Nat) :
    (b.appN s n).text = b.text ++ s := rfl
@[simp] theorem appN_pos (b : B) (s : List Char) (n : Nat) :
    (b.appN s n).pos = b.pos + n := rfl
@[simp] theorem appN_entities (b : B) (s : List Char) (n : Nat) :
    (b.appN s n).entities = b.entities := rfl
@[simp] theorem entN_text (b : B) (a c : Nat) (lab : String) (v : List Char) :
    (b.entN a c lab v).text = b.text := rfl
@[simp] theorem entN_pos (b : B) (a c : Nat) (lab : String) (v : List Char) :
    (b.entN a c lab v).pos = b.pos := rfl
@[simp] theorem entN_entities (b : B) (a c : Nat) (lab : String) (v : List Char) :
    (b.entN a c lab v).entities = b.entities ++ [⟨a, c, lab, v⟩] := rfl

theorem B0_ok : BOk B0 := by
  refine ⟨rfl, ?_, ?_⟩
  · intro e he
    simp [B0] at he
  · simp [B0]

/-- Appending text whose length matches the cursor increment preserves
the invariant. -/
theorem appN_ok {b : B} {s : List Char} {n : Nat} (h : BOk b) (hn : n = s.length) :
    BOk (b.appN s n) := by
  obtain ⟨hp, he, hc⟩ := h
  refine ⟨?_, ?_, ?_⟩
  · simp [hn, hp]
  · intro e hin
    simp only [appN_entities] at hin
    obtain ⟨⟨hs, hse⟩, hstop⟩ := he e hin
    refine ⟨⟨?_, hse⟩, ?_⟩
    · simp only [appN_text]
      rw [pySlice_frozen s (le_trans hstop (le_of_eq hp))]
      exact hs
    · simp only [appN_pos]
      omega
  · simpa using hc

/-- Recording an entity whose span already lies in the text and starts
after every previously recorded entity preserves the invariant. -/
theorem entN_ok {b : B} {a c : Nat} {lab : String} {v : List Char} (h : BOk b)
    (hs : pySlice b.text a c = v) (hac : a ≤ c) (hcp : c ≤ b.pos)
    (hprev : ∀ e ∈ b.entities, e.stop ≤ a) : BOk (b.entN a c lab v) := by
  obtain ⟨hp, he, hch⟩ := h
  refine ⟨hp, ?_, ?_⟩
  · intro e hin
    simp only [entN_entities, List.mem_append, List.mem_singleton] at hin
    cases hin with
    | inl h1 => exact he e h1
    | inr h2 =>
      subst h2
      exact ⟨⟨hs, hac⟩, hcp⟩
  · simp only [entN_entities]
    rw [List.chain'_append]
    refine ⟨hch, List.chain'_singleton _, ?_⟩
    intro x hx y hy
    simp only [List.head?_cons, Option.mem_def, Option.some.injEq] at hy
    subst hy
    exact hprev x (List.mem_of_mem_getLast? hx)

/-- The source pattern `parts.append(v + tail); pos += n;
entities.append([start, start + len(v), lab, v])` preserves the
invariant when `n` matches the appended length. -/
theorem emit_ent_ok {b : B} (h : BOk b) (v tail : List Char) (n : Nat)
    (hn : n = v.length + tail.length) (a c : Nat) (ha : a = b.pos)
    (hc : c = b.pos + v.length) (lab : String) :
    BOk ((b.appN (v ++ tail) n).entN a c lab v) := by
  subst ha hc hn
  apply entN_ok (appN_ok h (by simp))
  · simp only [appN_text]
    rw [h.1, pySlice_at_end]
    exact List.take_left _ _
  · omega
  · simp only [appN_pos]
    omega
  · intro e he
    simp only [appN_entities] at he
    exact (h.2.1 e he).2

/-- The source pattern `parts.append(v); pos += n;
entities.append([start, pos, lab, v])` preserves the invariant. -/
theorem emit_ent_ok' {b : B} (h : BOk b) (v : List Char) (n : Nat) (hn : n = v.length)
    (a c : Nat) (ha : a = b.pos) (hc : c = b.pos + n) (lab : String) :
    BOk ((b.appN v n).entN a c lab v) := by
  subst ha hc hn
  apply entN_ok (appN_ok h rfl)
  · simp only [appN_text]
    rw [h.1, pySlice_at_end, List.take_length]
  · omega
  · simp only [appN_pos]
    omega
  · intro e he
    simp only [appN_entities] at he
    exact (h.2.1 e he).2

/-! ## Per-field invariant preservation, simple format -/

theorem sfHeader_ok (cfg : NoiseConfig) (o : SimpleOracle) {b : B} (h : BOk b) :
    BOk (sfHeader cfg o b) := by
  unfold sfHeader
  exact emit_ent_ok h _ (chars " ") _ rfl _ _ rfl rfl _

theorem sfDocType_ok (cfg : NoiseConfig) (o : SimpleOracle) {b : B} (h : BOk b) :
    BOk (sfDocType cfg o b) := by
  unfold sfDocType
  exact emit_ent_ok' h _ _ rfl _ _ rfl rfl _

theorem sfIdNumber_ok (cfg : NoiseConfig) (o : SimpleOracle) {b : B} (h : BOk b) :
    BOk (sfIdNumber cfg o b) := by
  unfold sfIdNumber
  exact emit_ent_ok' (appN_ok h rfl) _ _ rfl _ _ rfl rfl _

theorem sfNationality_ok (cfg : NoiseConfig) (o : SimpleOracle) {b : B} (h : BOk b) :
    BOk (sfNationality cfg o b) := by
  unfold sfNationality
  refine emit_ent_ok (appN_ok h rfl) _ (chars " ") _ rfl _ _ rfl ?_ _
  simp only [appN_pos]
  omega

theorem sfTwoLetterCode_ok (sp : SimpleProbs) (o : SimpleOracle)
    (surname : List Char) (given : List (List Char)) {b : B} (h : BOk b) :
    BOk (sfTwoLetterCode sp o surname given b) := by
  unfold sfTwoLetterCode
  split
  · exact appN_ok h rfl
  · exact h

theorem sfSignatureNoise_ok (sp : SimpleProbs) (sig : List (List Char × ℚ))
    (o : SimpleOracle) {b : B} (h : BOk b) : BOk (sfSignatureNoise sp sig o b) := by
  unfold sfSignatureNoise
  split
  · split
    · split
      · exact appN_ok h rfl
      · exact h
    · exact h
  · exact h

theorem sfName_ok (cfg : NoiseConfig) (o : SimpleOracle) (surname : List Char)
    {b : B} (h : BOk b) : BOk (sfName cfg o surname b) := by
  unfold sfName
  exact emit_ent_ok' (appN_ok h rfl) _ _ rfl _ _ rfl rfl _

theorem sfSocial_ok (cfg : NoiseConfig) (sp : SimpleProbs) (o : SimpleOracle)
    {b : B} (h : BOk b) : BOk (sfSocial cfg sp o b) := by
  unfold sfSocial
  split
  · exact emit_ent_ok' (appN_ok h rfl) _ _ rfl _ _ rfl rfl _
  · exact h

theorem sfPrenomLabel_ok (cfg : NoiseConfig) (o : SimpleOracle) {b : B} (h : BOk b) :
    BOk (sfPrenomLabel cfg o b) := by
  unfold sfPrenomLabel
  exact appN_ok h rfl

theorem givenNamesLoop_ok : ∀ (names : List (List Char)) (i : Nat) {b : B}, BOk b →
    BOk (givenNamesLoop i names b) := by
  intro names
  induction names with
  | nil => intro i b h; exact h
  | cons g rest ih =>
    intro i b h
    rw [givenNamesLoop]
    apply ih
    have h1 : BOk (if i > 0 then b.appN (chars ", ") 2 else b) := by
      split
      · exact appN_ok h rfl
      · exact h
    exact emit_ent_ok' h1 g g.length rfl _ _ rfl rfl _

theorem sfSexLabel_ok (cfg : NoiseConfig) (o : SimpleOracle) {b : B} (h : BOk b) :
    BOk (sfSexLabel cfg o b) := by
  unfold sfSexLabel
  exact appN_ok h rfl

theorem sfGender_ok (o : SimpleOracle) {b : B} (h : BOk b) : BOk (sfGender o b) := by
  unfold sfGender
  refine emit_ent_ok' h _ 1 ?_ _ _ rfl rfl _
  cases o.genderIsM <;> rfl

theorem sfNeLabel_ok (cfg : NoiseConfig) (o : SimpleOracle) {b : B} (h : BOk b) :
    BOk (sfNeLabel cfg o b) := by
  unfold sfNeLabel
  exact appN_ok h rfl

theorem sfBirthDate_ok (o : SimpleOracle) {b : B} (h : BOk b) : BOk (sfBirthDate o b) := by
  unfold sfBirthDate
  exact emit_ent_ok' h _ _ rfl _ _ rfl rfl _

theorem sfBirthPlace_ok (sp : SimpleProbs) (o : SimpleOracle) {b : B} (h : BOk b) :
    BOk (sfBirthPlace sp o b) := by
  unfold sfBirthPlace
  split
  · exact emit_ent_ok' (appN_ok h rfl) _ _ rfl _ _ rfl rfl _
  · exact h

theorem sfHeight_ok (cfg : NoiseConfig) (sp : SimpleProbs) (o : SimpleOracle)
    {b : B} (h : BOk b) : BOk (sfHeight cfg sp o b) := by
  unfold sfHeight
  split
  · exact emit_ent_ok' (appN_ok h rfl) _ _ rfl _ _ rfl rfl _
  · exact h

theorem sfSignature_ok (cfg : NoiseConfig) (sp : SimpleProbs) (o : SimpleOracle)
    {b : B} (h : BOk b) : BOk (sfSignature cfg sp o b) := by
  unfold sfSignature
  split
  · exact appN_ok h rfl
  · exact h

/-- The whole simple-format generator maintains the buffer invariant. -/
theorem generate_simple_format_ok (cfg : NoiseConfig) (sp : SimpleProbs)
    (sig : List (List Char × ℚ)) (o : SimpleOracle) :
    BOk (generate_simple_format cfg sp sig o) := by
  unfold generate_simple_format
  exact sfSignature_ok _ _ _ (sfHeight_ok _ _ _ (sfBirthPlace_ok _ _ (sfBirthDate_ok _
    (sfNeLabel_ok _ _ (sfGender_ok _ (sfSexLabel_ok _ _ (givenNamesLoop_ok _ _
    (sfPrenomLabel_ok _ _ (sfSocial_ok _ _ _ (sfName_ok _ _ _ (sfSignatureNoise_ok _ _ _
    (sfTwoLetterCode_ok _ _ _ _ (sfNationality_ok _ _ (sfIdNumber_ok _ _
    (sfDocType_ok _ _ (sfHeader_ok _ _ B0_ok))))))))))))))))

/-! ## Per-field invariant preservation, bilingual format -/

theorem bfHeader_ok (cfg : NoiseConfig) (o : BilingualOracle) {b : B} (h : BOk b) :
    BOk (bfHeader cfg o b) := by
  unfold bfHeader
  exact emit_ent_ok' h _ _ rfl _ _ rfl rfl _

theorem bfFR_ok {b : B} (h : BOk b) : BOk (bfFR b) := by
  unfold bfFR
  exact appN_ok h rfl

theorem bfDocType_ok (cfg : NoiseConfig) (o : BilingualOracle) {b : B} (h : BOk b) :
    BOk (bfDocType cfg o b) := by
  unfold bfDocType
  exact emit_ent_ok' h _ _ rfl _ _ rfl rfl _

theorem bfName_ok (cfg : NoiseConfig) (o : BilingualOracle) (surname : List Char)
    {b : B} (h : BOk b) : BOk (bfName cfg o surname b) := by
  unfold bfName
  exact emit_ent_ok' (appN_ok h rfl) _ _ rfl _ _ rfl rfl _

theorem bfGivenLabel_ok (cfg : NoiseConfig) (o : BilingualOracle) {b : B} (h : BOk b) :
    BOk (bfGivenLabel cfg o b) := by
  unfold bfGivenLabel
  exact appN_ok h rfl

theorem bfSexLabel_ok (cfg : NoiseConfig) (o : BilingualOracle) {b : B} (h : BOk b) :
    BOk (bfSexLabel cfg o b) := by
  unfold bfSexLabel
  exact appN_ok h rfl

theorem bfNatLabel_ok (cfg : NoiseConfig) (o : BilingualOracle) {b : B} (h : BOk b) :
    BOk (bfNatLabel cfg o b) := by
  unfold bfNatLabel
  exact appN_ok h rfl

theorem bfDateLabel_ok {b : B} (h : BOk b) : BOk (bfDateLabel b) := by
  unfold bfDateLabel
  exact appN_ok h rfl

theorem bfGender_ok (o : BilingualOracle) {b : B} (h : BOk b) : BOk (bfGender o b) := by
  unfold bfGender
  refine emit_ent_ok h _ (chars " ") 2 ?_ _ _ rfl ?_ _
  · cases o.genderIsM <;> rfl
  · cases o.genderIsM <;> rfl

theorem bfNationality_ok (o : BilingualOracle) {b : B} (h : BOk b) :
    BOk (bfNationality o b) := by
  unfold bfNationality
  refine emit_ent_ok h _ (chars " ") _ rfl _ _ rfl ?_ _
  simp only [appN_pos]
  omega

theorem bfBirthDate_ok (o : BilingualOracle) {b : B} (h : BOk b) :
    BOk (bfBirthDate o b) := by
  unfold bfBirthDate
  exact emit_ent_ok' h _ _ rfl _ _ rfl rfl _

theorem bfBirthPlace_ok (bp : BilingualProbs) (o : BilingualOracle) {b : B} (h : BOk b) :
    BOk (bfBirthPlace bp o b) := by
  unfold bfBirthPlace
  split
  · exact emit_ent_ok' (appN_ok h rfl) _ _ rfl _ _ rfl rfl _
  · exact h

theorem bfAltName_ok (cfg : NoiseConfig) (bp : BilingualProbs) (o : BilingualOracle)
    {b : B} (h : BOk b) : BOk (bfAltName cfg bp o b) := by
  unfold bfAltName
  split
  · exact emit_ent_ok' (appN_ok h rfl) _ _ rfl _ _ rfl rfl _
  · exact h

theorem bfDocNumber_ok (o : BilingualOracle) {b : B} (h : BOk b) :
    BOk (bfDocNumber o b) := by
  unfold bfDocNumber
  exact emit_ent_ok' (appN_ok h rfl) _ _ rfl _ _ rfl rfl _

theorem bfExpiry_ok (cfg : NoiseConfig) (bp : BilingualProbs) (o : BilingualOracle)
    {b : B} (h : BOk b) : BOk (bfExpiry cfg bp o b) := by
  unfold bfExpiry
  split
  · exact emit_ent_ok' (appN_ok h rfl) _ _ rfl _ _ rfl rfl _
  · exact h

/-- Every element of the fixed two-letter signature-noise pool has length
3, so the constant cursor advance of 3 in the source matches. -/
theorem twoLetterNoises_len (i : Nat) : (listChoice twoLetterNoises i []).length = 3 := by
  have h7 : i % 7 < 7 := Nat.mod_lt _ (by norm_num)
  have hall : ∀ j, j < 7 → ((twoLetterNoises.getD j []).length = 3) := by decide
  unfold listChoice
  exact hall _ h7

theorem bfSupport_ok (bp : BilingualProbs) (sigB : List (List Char × ℚ))
    (o : BilingualOracle) {b : B} (h : BOk b) : BOk (bfSupport bp sigB o b) := by
  unfold bfSupport
  split
  · refine emit_ent_ok' ?_ _ _ rfl _ _ rfl rfl _
    split
    · split
      · exact appN_ok (appN_ok h rfl) rfl
      · split
        · exact appN_ok (appN_ok h rfl) (twoLetterNoises_len _).symm
        · split
          · exact appN_ok (appN_ok h rfl) rfl
          · exact appN_ok h rfl
    · exact appN_ok h rfl
  · exact h

/-- The whole bilingual-format generator maintains the buffer invariant. -/
theorem generate_bilingual_format_ok (cfg : NoiseConfig) (bp : BilingualProbs)
    (sigB : List (List Char × ℚ)) (o : BilingualOracle) :
    BOk (generate_bilingual_format cfg bp sigB o) := by
  unfold generate_bilingual_format
  exact bfSupport_ok _ _ _ (bfExpiry_ok _ _ _ (bfDocNumber_ok _ (bfAltName_ok _ _ _
    (bfBirthPlace_ok _ _ (bfBirthDate_ok _ (bfNationality_ok _ (bfGender_ok _
    (bfDateLabel_ok (bfNatLabel_ok _ _ (bfSexLabel_ok _ _ (givenNamesLoop_ok _ _
    (bfGivenLabel_ok _ _ (bfName_ok _ _ _ (bfDocType_ok _ _ (bfFR_ok
    (bfHeader_ok _ _ B0_ok))))))))))))))))

/-! ## Span correctness and entity ordering (C1, C7, C8) -/

/-- C1.  For every sample produced by `generate_simple_format` or
`generate_bilingual_format`, under any noise configuration and any
oracle, every recorded entity `[start, end, label, value]` satisfies
`text[start:end] == value` on the finalized text: spans are computed
after each segment's noise and later appends only extend the buffer. -/
theorem spans_correct (cfg : NoiseConfig) (sp : SimpleProbs) (sig : List (List Char × ℚ))
    (o : SimpleOracle) (cfg' : NoiseConfig) (bp : BilingualProbs)
    (sigB : List (List Char × ℚ)) (o' : BilingualOracle) :
    (∀ e ∈ (generate_simple_format cfg sp sig o).entities,
       pySlice (generate_simple_format cfg sp sig o).text e.start e.stop = e.value) ∧
    (∀ e ∈ (generate_bilingual_format cfg' bp sigB o').entities,
       pySlice (generate_bilingual_format cfg' bp sigB o').text e.start e.stop = e.value) := by
  constructor
  · intro e he
    exact ((generate_simple_format_ok cfg sp sig o).2.1 e he).1.1
  · intro e he
    exact ((generate_bilingual_format_ok cfg' bp sigB o').2.1 e he).1.1

/-- Witness for C1: in the clean deterministic run, the `Country` entity
at `[0, 20)` slices back to its recorded value. -/
theorem spans_correct_witness :
    pySlice (generate_simple_format cfgOff spZero [] oSimpleW).text 0 20 =
      chars "RÉPUBLIQUE FRANÇAISE" :=
  (spans_correct cfgOff spZero [] oSimpleW cfgOff bpZero [] oBilingualW).1
    ⟨0, 20, "Country", chars "RÉPUBLIQUE FRANÇAISE"⟩ (by decide)

/-- Counterexample for C7 as stated: under a configuration whose
character-deletion probability is 1 (draws 0, all legal), the noised
`DOC_TYPE` value and the noised ID label both become empty, so the
`DOC_TYPE` entity and the `DNI` entity both start at offset 1 — the
start offsets of consecutive entities are not strictly increasing. -/
theorem entities_strict_cex :
    ¬ List.Chain' (fun e₁ e₂ => e₁.start < e₂.start)
        (generate_simple_format cfgDropAll spZero [] oSimpleDrop).entities := by
  intro h
  have hm : (generate_simple_format cfgDropAll spZero [] oSimpleDrop).entities.map
      Entity.start = [0, 1, 1, 13, 23, 32, 35, 43] := by
    with_unfolding_all decide
  have h2 : List.Chain' (fun a b : Nat => a < b) [0, 1, 1, 13, 23, 32, 35, 43] := by
    rw [← hm]
    exact (List.chain'_map Entity.start).mpr h
  simp only [List.chain'_cons, List.chain'_singleton, and_true] at h2
  exact absurd h2.2.1 (lt_irrefl 1)

/-- C7 (amended).  In both formats the recorded entity list is ordered by
appearance without re-sorting: consecutive entities satisfy
`e₁.end ≤ e₂.start` (so they are non-overlapping and their start offsets
are nondecreasing); strict increase of starts can fail only when
character-deletion noise empties an entity's value. -/
theorem entities_ordered (cfg : NoiseConfig) (sp : SimpleProbs) (sig : List (List Char × ℚ))
    (o : SimpleOracle) (cfg' : NoiseConfig) (bp : BilingualProbs)
    (sigB : List (List Char × ℚ)) (o' : BilingualOracle) :
    (List.Chain' (fun e₁ e₂ => e₁.stop ≤ e₂.start)
        (generate_simple_format cfg sp sig o).entities ∧
     ∀ e ∈ (generate_simple_format cfg sp sig o).entities, e.start ≤ e.stop) ∧
    (List.Chain' (fun e₁ e₂ => e₁.stop ≤ e₂.start)
        (generate_bilingual_format cfg' bp sigB o').entities ∧
     ∀ e ∈ (generate_bilingual_format cfg' bp sigB o').entities, e.start ≤ e.stop) := by
  refine ⟨⟨?_, ?_⟩, ⟨?_, ?_⟩⟩
  · exact (generate_simple_format_ok cfg sp sig o).2.2
  · intro e he
    exact ((generate_simple_format_ok cfg sp sig o).2.1 e he).1.2
  · exact (generate_bilingual_format_ok cfg' bp sigB o').2.2
  · intro e he
    exact ((generate_bilingual_format_ok cfg' bp sigB o').2.1 e he).1.2

/-- Witness for C7 (amended) on the clean deterministic run. -/
theorem entities_ordered_witness :
    List.Chain' (fun e₁ e₂ => e₁.stop ≤ e₂.start)
      (generate_simple_format cfgOff spZero [] oSimpleW).entities ∧
    (Entity.mk 0 20 "Country" (chars "RÉPUBLIQUE FRANÇAISE")).start ≤
      (Entity.mk 0 20 "Country" (chars "RÉPUBLIQUE FRANÇAISE")).stop :=
  ⟨(entities_ordered cfgOff spZero [] oSimpleW cfgOff bpZero [] oBilingualW).1.1,
   (entities_ordered cfgOff spZero [] oSimpleW cfgOff bpZero [] oBilingualW).1.2
     ⟨0, 20, "Country", chars "RÉPUBLIQUE FRANÇAISE"⟩ (by decide)⟩

/-- C8.  Running the given-name loop (as the simple format does, starting
at index 0) on exactly three names records exactly the three entities
labelled `Surname_1`, `Surname_2`, `Surname_3` — indices starting at 1
with no gaps — in left-to-right text order, with `", "` emitted between
consecutive names. -/
theorem givenNamesLoop_three (st : B) (a b c : List Char) :
    givenNamesLoop 0 [a, b, c] st =
      { text := st.text ++ a ++ chars ", " ++ b ++ chars ", " ++ c
        entities := st.entities ++
          [⟨st.pos, st.pos + a.length, "Surname_1", a⟩,
           ⟨st.pos + a.length + 2, st.pos + a.length + 2 + b.length, "Surname_2", b⟩,
           ⟨st.pos + a.length + 2 + b.length + 2,
            st.pos + a.length + 2 + b.length + 2 + c.length, "Surname_3", c⟩]
        pos := st.pos + a.length + 2 + b.length + 2 + c.length } := by
  have h1 : surnameLabel 0 = "Surname_1" := by decide
  have h2 : surnameLabel 1 = "Surname_2" := by decide
  have h3 : surnameLabel 2 = "Surname_3" := by decide
  simp [givenNamesLoop, B.appN, B.entN, h1, h2, h3]
